import Mathlib

/-!
# Clippy — shallow embedding and verification of the clip-processing core

This file embeds, in Lean 4, the parts of the Clippy repository that the
specification's claims are about:

* `src/clippy/naming.py` — `sanitize_filename`, `ensure_unique_names`;
* `src/clippy/pipeline.py` — `create_compilations_from`, the transition asset
  cache `_ensure_transcoded` inside `write_concat_file`, the weighted
  transition selection `_weighted_transition_choice`, the clip/spacer
  sequencing loop of `write_concat_file`, and the shutdown-observation
  behaviour of the subprocess-launching steps (`download_clip`,
  `create_thumbnail`, `process_clip`, `run_proc_cancellable`, `stage_two`).

Modelling conventions:

* Python strings are Lean `String` (ASCII-relevant operations such as
  `str.lower()` are modelled character-wise with `Char.toLower`).
* Filesystem and process facts (does a file exist, did an encode succeed,
  does the source contain an audio stream) are explicit boolean inputs.
* Randomness (`random.random`, `random.choice`, `random.choices`) is
  modelled by oracle inputs: a boolean for each probability roll and a
  natural-number index selecting an element of the candidate pool.  The
  weight vector of `random.choices` only biases which pool element is
  picked, so a free index over the pool covers exactly the possible
  outcomes.
* External process launches are tracked explicitly: each modelled operation
  returns, along with its result, the list of commands it would spawn.
-/

/-! ## `naming.sanitize_filename`

Python source (`src/clippy/naming.py`):
`re.sub(r"[^A-Za-z0-9._-]+", "_", s)[:80]` — every maximal run of
characters outside `[A-Za-z0-9._-]` is replaced by a single `'_'`, then the
result is truncated to its first 80 characters. -/

def allowedFilenameChar (c : Char) : Bool :=
  (('A' ≤ c && c ≤ 'Z') || ('a' ≤ c && c ≤ 'z') || ('0' ≤ c && c ≤ '9')
    || c = '.' || c = '_' || c = '-')

/-- The run-collapsing substitution of `re.sub(r"[^A-Za-z0-9._-]+", "_", s)`.
The boolean state records whether the previous character belonged to a
disallowed run (so the run contributes only one `'_'`). -/
def sanitizeAux : Bool → List Char → List Char
  | _, [] => []
  | prevBad, c :: cs =>
    if allowedFilenameChar c then c :: sanitizeAux false cs
    else if prevBad then sanitizeAux true cs
    else '_' :: sanitizeAux true cs

def sanitize_filename (s : String) : String :=
  ⟨(sanitizeAux false s.data).take 80⟩

/-! ## `pipeline._weighted_transition_choice`

Python source (`src/clippy/pipeline.py`, inside `write_concat_file`):

* returns `None` when the configured transition list is empty;
* otherwise, when `transition_cooldown` is nonzero and the recent-picks
  history is nonempty, the pool is the transition list minus the values in
  `recent[-cooldown:]`, falling back to the full list if that filter would
  empty the pool;
* finally one pool element is chosen by `random.choices` with per-asset
  weights (all-nonpositive weight vectors are reset to uniform), with a
  `random.choice(pool)` fallback.  Both always return an element of the
  pool; the weights only bias which one, so the random draw is modelled by
  a free index `k` into the pool. -/

/-- Python's `l[-n:]`: the last `n` elements (the whole list when `n`
exceeds its length; `n ≥ 1` at every use site). -/
def lastN (n : Nat) (l : List α) : List α := l.drop (l.length - n)

def weightedTransitionChoice (transitions : List String) (cooldown : Nat)
    (recent : List String) (k : Nat) : Option String :=
  if transitions = [] then none
  else
    let pool :=
      if cooldown ≠ 0 ∧ recent ≠ [] then
        let filtered := transitions.filter (fun t => t ∉ lastN cooldown recent)
        if filtered = [] then transitions else filtered
      else transitions
    pool.get? (k % pool.length)

/-! ## `pipeline.create_compilations_from`

Python source (`src/clippy/pipeline.py`):

```
eligible = [c for c in clips if c[4] >= reactionThreshold]
random.shuffle(eligible)
compilations = []
while eligible and len(compilations) < amountOfCompilations:
    compilations.append(eligible[:amountOfClips])
    eligible = eligible[amountOfClips:]
```

A `ClipRow` is the tuple `(id, created_ts, author, avatar_url, views, url)`.
`random.shuffle` is modelled by a shuffle parameter; theorems assume only
that it permutes its input.  The `while` loop appends one compilation per
iteration, so it runs at most `amountOfCompilations` times; it is embedded
as structural recursion on that remaining count. -/

structure ClipRow where
  id : String
  createdTs : Int
  author : String
  avatarUrl : String
  views : Int
  url : String
deriving DecidableEq, Repr

def eligibleClips (threshold : Int) (clips : List ClipRow) : List ClipRow :=
  clips.filter (fun c => threshold ≤ c.views)

/-- The `while` loop: chunk the shuffled eligible list into slices of
`amountOfClips`, stopping when the list is exhausted or the compilation
count is reached. -/
def buildComps (amountOfClips : Nat) : Nat → List ClipRow → List (List ClipRow)
  | _, [] => []
  | 0, _ :: _ => []
  | fuel + 1, c :: rest =>
    (c :: rest).take amountOfClips
      :: buildComps amountOfClips fuel ((c :: rest).drop amountOfClips)

def create_compilations_from (threshold : Int) (amountOfClips amountOfComps : Nat)
    (shuffle : List ClipRow → List ClipRow) (clips : List ClipRow) :
    List (List ClipRow) :=
  buildComps amountOfClips amountOfComps (shuffle (eligibleClips threshold clips))

def rowW1 : ClipRow := ⟨"w1", 0, "a", "", 1, "u"⟩

def rowW2 : ClipRow := ⟨"w2", 0, "a", "", 1, "u"⟩

def rowW3 : ClipRow := ⟨"w3", 0, "a", "", 1, "u"⟩

def rowW4 : ClipRow := ⟨"w4", 0, "a", "", 1, "u"⟩

def rowW5 : ClipRow := ⟨"w5", 0, "a", "", 1, "u"⟩

/-- 5 distinct eligible clips. -/
def clips5 : List ClipRow := [rowW1, rowW2, rowW3, rowW4, rowW5]

/-! ## `pipeline._ensure_transcoded` (Transition Asset Cache)

Python source (`src/clippy/pipeline.py`, inside `write_concat_file`).
The environment of one call is made explicit:

* `name` — the asset filename (`""` is falsy and returns `None` at once);
* `srcExists` — whether `find_transition_file`/the transitions dir
  resolves the source file;
* `dstExists` — whether the cache copy `cache/_trans/name` already exists;
* `rebuildTrans`, `audNorm`, `staticName`, `silenceStatic` — the
  `transitions_rebuild`, `audio_normalize_transitions`, `static` and
  `silence_static` configuration values;
* `probeRcZero` — whether the ffprobe audio-stream probe exits 0
  (`has_audio`);
* `entry` — the parsed manifest entry for `name`
  (`(silent, aud_norm)`; `none` for a missing or non-dict entry);
* `shutdown` — the state of `SHUTDOWN_EVENT` during the call;
* `rc1`, `rc2`, `rc3` — whether the first encode, the no-loudnorm retry
  and the silent-audio fallback succeed (exit code 0).

The result records the returned path, the manifest entry for `name` after
the call, the encode commands actually launched, whether the ffprobe
audio probe was launched (it runs before the cache-reuse check and before
any shutdown check), and whether the cache copy exists afterwards. -/

inductive EncKind where
  | forcedSilent
  | withAudio (loudnorm : Bool)
  | synthAudio
  | retryNoLoudnorm
  | silentFallback
deriving DecidableEq, Repr

structure CacheEnv where
  name : String
  srcExists : Bool
  dstExists : Bool
  rebuildTrans : Bool
  audNorm : Bool
  staticName : String
  silenceStatic : Bool
  probeRcZero : Bool
  entry : Option (Bool × Bool)
  shutdown : Bool
  rc1 : Bool
  rc2 : Bool
  rc3 : Bool
deriving DecidableEq, Repr

structure TransOut where
  ret : Option String
  entry : Option (Bool × Bool)
  encodes : List EncKind
  probeRun : Bool
  dstExists : Bool
deriving DecidableEq, Repr

/-- `f"{rel_assets_dir}/{name}"` with `rel_assets_dir = "_trans"`. -/
def relPath (name : String) : String := "_trans/" ++ name

/-- `force_silent_audio = bool(name == _cfg_static and _silence_static)`;
this is also `desired_silent`. -/
def desiredSilentB (e : CacheEnv) : Bool :=
  (e.name == e.staticName) && e.silenceStatic

/-- `desired_audnorm = (not desired_silent) and bool(_aud_norm)`. -/
def desiredAudnormB (e : CacheEnv) : Bool :=
  !desiredSilentB e && e.audNorm

/-- `bool(entry.get("silent")) == desired_silent and
bool(entry.get("aud_norm")) == desired_audnorm` for a dict entry. -/
def manifestMatches (e : CacheEnv) : Bool :=
  match e.entry with
  | some (s, a) => (s == desiredSilentB e) && (a == desiredAudnormB e)
  | none => false

/-- The complete cache-reuse condition of lines 705-720: the cache copy
exists, rebuild is not forced, and either the manifest entry matches the
desired parameters, or no entry exists and neither silence nor loudness
normalization is desired. -/
def reuseOk (e : CacheEnv) : Bool :=
  e.dstExists && !e.rebuildTrans &&
    (manifestMatches e ||
      (e.entry == none && !desiredSilentB e && !desiredAudnormB e))

/-- The first encode command chosen (forced-silent / has-audio with
optional loudnorm / synthesized-audio). -/
def encKind1 (e : CacheEnv) : EncKind :=
  if desiredSilentB e then EncKind.forcedSilent
  else if e.probeRcZero then EncKind.withAudio e.audNorm
  else EncKind.synthAudio

def ensureTranscoded (e : CacheEnv) : TransOut :=
  if e.name = "" then ⟨none, e.entry, [], false, e.dstExists⟩
  else if e.srcExists = false then ⟨none, e.entry, [], false, e.dstExists⟩
  else
    -- The audio probe runs here, before the reuse check and before any
    -- shutdown check.
    if reuseOk e then ⟨some (relPath e.name), e.entry, [], true, e.dstExists⟩
    else if e.shutdown then ⟨none, e.entry, [], true, e.dstExists⟩
    else if e.rc1 then
      ⟨some (relPath e.name), some (desiredSilentB e, desiredAudnormB e),
        [encKind1 e], true, true⟩
    else if !desiredSilentB e && e.audNorm then
      if e.rc2 then
        -- The no-loudnorm retry succeeded; control falls through to the
        -- final "Successful build" block, which records the *desired*
        -- parameters (aud_norm = true) although the build used none.
        ⟨some (relPath e.name), some (desiredSilentB e, desiredAudnormB e),
          [encKind1 e, EncKind.retryNoLoudnorm], true, true⟩
      else if e.rc3 then
        ⟨some (relPath e.name), some (true, false),
          [encKind1 e, EncKind.retryNoLoudnorm, EncKind.silentFallback],
          true, true⟩
      else
        ⟨none, e.entry,
          [encKind1 e, EncKind.retryNoLoudnorm, EncKind.silentFallback],
          true, e.dstExists⟩
    else
      -- The first encode failed and no fallback rung applies
      -- (forced-silent asset, or loudness normalization disabled), yet
      -- control falls through to the final "Successful build" block:
      -- the manifest entry is written and the path returned.
      ⟨some (relPath e.name), some (desiredSilentB e, desiredAudnormB e),
        [encKind1 e], true, e.dstExists⟩

/-- The manifest/cache state visible to a second call for the same name:
the cache copy and entry left behind by the first call. -/
def afterCall (e : CacheEnv) : CacheEnv :=
  { e with dstExists := (ensureTranscoded e).dstExists,
           entry := (ensureTranscoded e).entry }

/-- Flipping the global loudness-normalization flag between calls. -/
def flipAudNorm (e : CacheEnv) : CacheEnv := { e with audNorm := !e.audNorm }

/-- A fresh-build environment: cache copy absent, manifest empty, loudness
normalization on, first encode succeeds. -/
def envC2 : CacheEnv :=
  { name := "t.mp4", srcExists := true, dstExists := false,
    rebuildTrans := false, audNorm := true, staticName := "static.mp4",
    silenceStatic := true, probeRcZero := true, entry := none,
    shutdown := false, rc1 := true, rc2 := true, rc3 := true }

/-- Cache copy present, rebuild not forced, but no manifest entry, with
neither silence nor loudness normalization desired. -/
def envC2NoEntry : CacheEnv :=
  { name := "t.mp4", srcExists := true, dstExists := true,
    rebuildTrans := false, audNorm := false, staticName := "static.mp4",
    silenceStatic := true, probeRcZero := true, entry := none,
    shutdown := false, rc1 := true, rc2 := true, rc3 := true }

/-- Forced-silent asset whose only encode attempt fails. -/
def envC4 : CacheEnv :=
  { name := "static.mp4", srcExists := true, dstExists := false,
    rebuildTrans := false, audNorm := true, staticName := "static.mp4",
    silenceStatic := true, probeRcZero := true, entry := none,
    shutdown := false, rc1 := false, rc2 := false, rc3 := false }

/-- Non-forced-silent asset with loudness normalization desired whose
encode and both fallbacks fail. -/
def envC4Ladder : CacheEnv :=
  { name := "t.mp4", srcExists := true, dstExists := false,
    rebuildTrans := false, audNorm := true, staticName := "static.mp4",
    silenceStatic := true, probeRcZero := true, entry := none,
    shutdown := false, rc1 := false, rc2 := false, rc3 := false }

/-- Same as `envC4Ladder` but the final silent-audio fallback succeeds. -/
def envC4Silent : CacheEnv :=
  { name := "t.mp4", srcExists := true, dstExists := false,
    rebuildTrans := false, audNorm := true, staticName := "static.mp4",
    silenceStatic := true, probeRcZero := true, entry := none,
    shutdown := false, rc1 := false, rc2 := false, rc3 := true }

/-- Non-forced-silent asset: first encode fails, the no-loudnorm retry
succeeds. -/
def envC5 : CacheEnv :=
  { name := "t.mp4", srcExists := true, dstExists := false,
    rebuildTrans := false, audNorm := true, staticName := "static.mp4",
    silenceStatic := true, probeRcZero := true, entry := none,
    shutdown := false, rc1 := false, rc2 := true, rc3 := false }

/-- Non-forced-silent asset: first encode and no-loudnorm retry fail, the
silent-audio fallback succeeds. -/
def envC5Silent : CacheEnv :=
  { name := "u.mp4", srcExists := true, dstExists := false,
    rebuildTrans := false, audNorm := true, staticName := "static.mp4",
    silenceStatic := true, probeRcZero := true, entry := none,
    shutdown := false, rc1 := false, rc2 := false, rc3 := true }

/-! ## Shutdown observation and process spawning

`run_proc_cancellable` (`src/clippy/pipeline.py` lines 208-350) spawns the
subprocess with `Popen` *first*, registers it, and only then enters the
poll loop; with `SHUTDOWN_EVENT` already set, the first poll iteration
terminates the child and returns `(1, b"interrupted")` — but a child
process was created.  `download_clip` (line 445), `create_thumbnail`
(line 483) and `process_clip` (lines 514/561) each check
`SHUTDOWN_EVENT` before invoking the runner; the audio probe inside
`_ensure_transcoded` (line 695) and the final concat launch in
`stage_two` (line 1155) do not.  The models return the operation's result
together with the list of commands spawned. -/

structure RunOut where
  rc : Int
  spawned : List String
deriving DecidableEq, Repr

/-- `run_proc_cancellable`: the child is spawned unconditionally; a set
shutdown signal is observed within one poll interval and yields the
synthetic interrupted result `(1, b"interrupted")`. -/
def runProcCancellable (shutdown : Bool) (cmd : String) (rc : Int) : RunOut :=
  if shutdown then ⟨1, [cmd]⟩ else ⟨rc, [cmd]⟩

/-- `download_clip`: skip when the final file exists and rebuild is off;
check the shutdown signal before invoking the runner. -/
def downloadClip (shutdown finalExists rebuild : Bool) (cmd : String)
    (rc : Int) : Int × List String :=
  if finalExists && !rebuild then (2, [])
  else if shutdown then (1, [])
  else
    let r := runProcCancellable shutdown cmd rc
    (if r.rc ≠ 0 then 1 else 0, r.spawned)

/-- `create_thumbnail`: same skip/shutdown structure, plus the PIL resize
step whose failure also yields 1. -/
def createThumbnail (shutdown previewExists rebuild : Bool) (cmd : String)
    (rc : Int) (resizeOk : Bool) : Int × List String :=
  if previewExists && !rebuild then (2, [])
  else if shutdown then (1, [])
  else
    let r := runProcCancellable shutdown cmd rc
    if r.rc ≠ 0 then (1, r.spawned)
    else if resizeOk then (0, r.spawned) else (1, r.spawned)

/-- `process_clip`: skip check, shutdown check, then the ffprobe duration
probe (`subprocess.check_output`), the normalize encode, and optionally
(after a second shutdown check) the overlay encode. -/
def processClip (shutdown finalExists rebuild enableOverlay : Bool)
    (probeCmd normCmd ovlCmd : String) (rcNorm rcOvl : Int) :
    Int × List String :=
  if finalExists && !rebuild then (2, [])
  else if shutdown then (1, [])
  else
    let rn := runProcCancellable shutdown normCmd rcNorm
    if rn.rc ≠ 0 then (1, probeCmd :: rn.spawned)
    else if enableOverlay then
      if shutdown then (1, probeCmd :: rn.spawned)
      else
        let ro := runProcCancellable shutdown ovlCmd rcOvl
        (if ro.rc ≠ 0 then 1 else 0, probeCmd :: (rn.spawned ++ ro.spawned))
    else (0, probeCmd :: rn.spawned)

/-- One compilation's final concat in `stage_two`: the cancellable runner
is invoked with no preceding shutdown check. -/
def stageTwoStep (shutdown : Bool) (cmd : String) (rc : Int) : RunOut :=
  runProcCancellable shutdown cmd rc

/-- A transition-asset build requested while the shutdown signal is set:
source present, nothing cached. -/
def envC6 : CacheEnv :=
  { name := "t.mp4", srcExists := true, dstExists := false,
    rebuildTrans := false, audNorm := true, staticName := "static.mp4",
    silenceStatic := true, probeRcZero := true, entry := none,
    shutdown := true, rc1 := true, rc2 := true, rc3 := true }

/-! ## Sequencing: the concat-script assembly of `write_concat_file`

After clip preparation, `write_concat_file` walks the per-clip results in
original order and appends lines to the concat script:

* a failed clip is skipped (warning) when `skip_bad_clip` is set,
  otherwise the loop `break`s;
* a successful clip contributes `file {id}/{id}.mp4`, then
  `_append_trans_file(static)`; then, unless `no_random_transitions` is
  set or the transition list is empty, a probability roll may choose a
  transition via `_weighted_transition_choice`, and if its build succeeds
  the transition line plus another static line are appended and the pick
  is recorded in the recent history;
* before the loop a random intro (if configured) is appended, followed by
  a static; after the loop a random outro (if configured) is appended.

Segments are modelled as a sum of clip references and built-asset
references; the literal file line is recovered by `renderSegment`.  The
result of `_ensure_transcoded` is abstracted by the oracle
`ensureT : String → Option String` (the cache-relative path, or `None`
when the asset is unavailable).  The per-clip probability rolls and pool
indices are an explicit decision list (an exhausted list stands for rolls
that come up false). -/

inductive Segment where
  | clip (id : String)
  | asset (rel : String)
deriving DecidableEq, Repr

/-- `lines.append(...)` content for one segment. -/
def renderSegment : Segment → String
  | Segment.clip id => "file " ++ id ++ "/" ++ id ++ ".mp4"
  | Segment.asset rel => "file " ++ rel

/-- `_append_trans_file`: falsy (empty) names fail at once; otherwise the
segment is emitted exactly when the asset cache returns a path. -/
def appendTransSeg (ensureT : String → Option String) (name : String) :
    Option Segment :=
  if name = "" then none else (ensureT name).map Segment.asset

structure SeqCfg where
  introList : List String
  outroList : List String
  transitionsList : List String
  staticName : String
  transCooldown : Nat
  noRand : Bool
  skipBad : Bool

/-- The segments emitted for one successfully prepared clip, together
with the remaining decision list and the updated recent-transitions
history. -/
def okStep (cfg : SeqCfg) (ensureT : String → Option String)
    (decs : List (Bool × Nat)) (recent : List String) (clip : ClipRow) :
    List Segment × List (Bool × Nat) × List String :=
  let spacer := (appendTransSeg ensureT cfg.staticName).toList
  if cfg.noRand = false ∧ cfg.transitionsList ≠ [] then
    match decs with
    | [] => (Segment.clip clip.id :: spacer, [], recent)
    | (roll, k) :: decs2 =>
      if roll then
        match weightedTransitionChoice cfg.transitionsList cfg.transCooldown
            recent k with
        | some t =>
          match appendTransSeg ensureT t with
          | some tseg =>
            (Segment.clip clip.id :: spacer ++ tseg ::
                (appendTransSeg ensureT cfg.staticName).toList,
              decs2, recent ++ [t])
          | none => (Segment.clip clip.id :: spacer, decs2, recent)
        | none => (Segment.clip clip.id :: spacer, decs2, recent)
      else (Segment.clip clip.id :: spacer, decs2, recent)
  else (Segment.clip clip.id :: spacer, decs, recent)

/-- The `for clip, ok in results` loop. -/
def seqLoop (cfg : SeqCfg) (ensureT : String → Option String) :
    List (Bool × Nat) → List String → List (ClipRow × Bool) → List Segment
  | _, _, [] => []
  | decs, recent, (clip, ok) :: rest =>
    if ok then
      let step := okStep cfg ensureT decs recent clip
      step.1 ++ seqLoop cfg ensureT step.2.1 step.2.2 rest
    else if cfg.skipBad then seqLoop cfg ensureT decs recent rest
    else []

/-- Intro: one uniformly random choice from the intro list (modelled by
the index `introPick`), emitted with a following static when its build
succeeds. -/
def introSegs (cfg : SeqCfg) (ensureT : String → Option String)
    (introPick : Nat) : List Segment :=
  match cfg.introList with
  | [] => []
  | x :: xs =>
    match appendTransSeg ensureT
        ((x :: xs).getD (introPick % (x :: xs).length) x) with
    | some iseg => iseg :: (appendTransSeg ensureT cfg.staticName).toList
    | none => []

/-- Outro: one uniformly random choice, no trailing static. -/
def outroSegs (cfg : SeqCfg) (ensureT : String → Option String)
    (outroPick : Nat) : List Segment :=
  match cfg.outroList with
  | [] => []
  | x :: xs =>
    (appendTransSeg ensureT
      ((x :: xs).getD (outroPick % (x :: xs).length) x)).toList

/-- The full concat script for one compilation (as segments; the written
file is `map renderSegment` of this, one line each). -/
def writeConcatSegs (cfg : SeqCfg) (ensureT : String → Option String)
    (introPick outroPick : Nat) (decs : List (Bool × Nat))
    (results : List (ClipRow × Bool)) : List Segment :=
  introSegs cfg ensureT introPick ++ seqLoop cfg ensureT decs [] results
    ++ outroSegs cfg ensureT outroPick

/-- The concat-script lines as written to `cache/comp{index}`. -/
def writeConcatLines (cfg : SeqCfg) (ensureT : String → Option String)
    (introPick outroPick : Nat) (decs : List (Bool × Nat))
    (results : List (ClipRow × Bool)) : List String :=
  (writeConcatSegs cfg ensureT introPick outroPick decs results).map
    renderSegment

/-- Segment lists in which every clip segment is immediately followed by
the spacer asset `relS` (in particular no clip segment is last). -/
inductive SpacerOK (relS : String) : List Segment → Prop
  | nil : SpacerOK relS []
  | asset (r : String) {rest : List Segment} :
      SpacerOK relS rest → SpacerOK relS (Segment.asset r :: rest)
  | clip (id : String) {rest : List Segment} :
      SpacerOK relS rest →
      SpacerOK relS (Segment.clip id :: Segment.asset relS :: rest)

def rowC1 : ClipRow := ⟨"c1", 0, "a", "", 1, "u"⟩

def rowC2 : ClipRow := ⟨"c2", 0, "a", "", 1, "u"⟩

def rowC3 : ClipRow := ⟨"c3", 0, "a", "", 1, "u"⟩

/-- A sequencing configuration whose static asset fails to build. -/
def cfgC1 : SeqCfg :=
  { introList := [], outroList := [], transitionsList := [],
    staticName := "static.mp4", transCooldown := 1, noRand := false,
    skipBad := true }

/-- An asset-cache oracle for which every build fails. -/
def ensNone : String → Option String := fun _ => none

/-- An asset-cache oracle for which every (nonempty) build succeeds. -/
def ensFixed : String → Option String :=
  fun n => if n = "" then none else some ("_trans/" ++ n)

/-- `skip_bad_clip = false`, an outro configured, clip 2 of 3 failed. -/
def cfgC3 : SeqCfg :=
  { introList := [], outroList := ["outro.mp4"], transitionsList := [],
    staticName := "static.mp4", transCooldown := 1, noRand := false,
    skipBad := false }

/-- Same configuration with `skip_bad_clip = true`. -/
def cfgC3Skip : SeqCfg :=
  { introList := [], outroList := ["outro.mp4"], transitionsList := [],
    staticName := "static.mp4", transCooldown := 1, noRand := false,
    skipBad := true }

def resC3 : List (ClipRow × Bool) :=
  [(rowC1, true), (rowC2, false), (rowC3, true)]

/-! ## `naming.ensure_unique_names`

Python source (`src/clippy/naming.py` lines 15-45): with `overwrite` the
requested names are returned unchanged; otherwise names are made unique,
case-insensitively, against both the target directory's existing contents
(`used`, a set of lowercased names) and the names already chosen in this
run, by appending `_1`, `_2`, ... before the extension
(`os.path.splitext`).  `str.lower()` is modelled character-wise
(`Char.toLower`; the filenames involved are ASCII), the directory listing
is an explicit input list, and the unbounded `while True` suffix search is
embedded with fuel `len(used) + len(result) + 1`, which is proved
sufficient below (the candidates are pairwise distinct, so one of the
first `N + 1` escapes the at-most-`N` blocking names). -/

def lowerS (s : String) : String := ⟨s.data.map Char.toLower⟩

/-- Decimal digits of `n` (most significant first); the fuel argument
makes the recursion structural and is immaterial once it is at least
`n`. -/
def natCharsAux : Nat → Nat → List Char
  | 0, _ => []
  | fuel + 1, n =>
    if n = 0 then []
    else natCharsAux fuel (n / 10) ++ [Nat.digitChar (n % 10)]

/-- Decimal representation of `n`, as produced by `f"{k}"`. -/
def natChars (n : Nat) : List Char :=
  if n = 0 then ['0'] else natCharsAux (n + 1) n

def natStr (n : Nat) : String := ⟨natChars n⟩

/-- Decoder used to establish injectivity of `natChars`. -/
def decodeAcc : Nat → List Char → Nat
  | a, [] => a
  | a, c :: cs => decodeAcc (a * 10 + (c.toNat - 48)) cs

/-- `os.path.rfind`-style last index of `c` in `l`, `-1` when absent. -/
def rfindIdx (c : Char) (l : List Char) : Int :=
  match l.reverse.findIdx? (fun x => x = c) with
  | none => -1
  | some j => ((l.length - 1 - j : Nat) : Int)

/-- `posixpath.splitext`: split at the last dot, except when every
character of the basename before that dot is itself a dot. -/
def splitext (p : String) : String × String :=
  let l := p.data
  let sepIndex := rfindIdx '/' l
  let dotIndex := rfindIdx '.' l
  if sepIndex < dotIndex then
    let filenameStart := (sepIndex + 1).toNat
    let dotN := dotIndex.toNat
    if ((l.drop filenameStart).take (dotN - filenameStart)).any
        (fun ch => ch ≠ '.') then
      (⟨l.take dotN⟩, ⟨l.drop dotN⟩)
    else (p, "")
  else (p, "")

/-- `f"{root}_{k}{ext}"`. -/
def candName (root ext : String) (k : Nat) : String :=
  root ++ "_" ++ natStr k ++ ext

/-- The collision check of the loop: lowercased name present in `used` or
among the lowercased names already chosen this run. -/
def isBlocked (used result : List String) (s : String) : Bool :=
  decide (lowerS s ∈ used) || decide (lowerS s ∈ result.map lowerS)

/-- The `while True` suffix search (`k = 1, 2, ...`), with fuel. -/
def findSuffix (used result : List String) (root ext : String) :
    Nat → Nat → String
  | 0, k => candName root ext k
  | fuel + 1, k =>
    if isBlocked used result (candName root ext k) then
      findSuffix used result root ext fuel (k + 1)
    else candName root ext k

/-- One iteration body of `ensure_unique_names`: keep a free name, else
suffix it. -/
def pickName (used result : List String) (name : String) : String :=
  if isBlocked used result name then
    findSuffix used result (splitext name).1 (splitext name).2
      (used.length + result.length + 1) 1
  else name

/-- The `for name in base_names` loop; `used` holds lowercased names. -/
def ensureLoop (used result : List String) : List String → List String
  | [] => result
  | name :: rest =>
    ensureLoop (lowerS (pickName used result name) :: used)
      (result ++ [pickName used result name]) rest

def ensure_unique_names (base_names existing : List String)
    (overwrite : Bool) : List String :=
  if overwrite then base_names
  else ensureLoop (existing.map lowerS) [] base_names

/-- A result name as the loop derives it from a requested name: either
the name itself, or the name with `_k` (`k ≥ 1`) inserted before the
extension. -/
def derivedFrom (name r : String) : Prop :=
  r = name ∨ ∃ k, 1 ≤ k ∧ r = candName (splitext name).1 (splitext name).2 k

theorem sanitizeAux_all_allowed (b : Bool) (l : List Char) :
    ∀ c ∈ sanitizeAux b l, allowedFilenameChar c = true := by
  induction l generalizing b with
  | nil => intro c hc; simp [sanitizeAux] at hc
  | cons x xs ih =>
    intro c hc
    by_cases hx : allowedFilenameChar x = true
    · simp [sanitizeAux, hx] at hc
      rcases hc with h | h
      · exact h ▸ hx
      · exact ih false c h
    · cases b with
      | true =>
        simp [sanitizeAux, hx] at hc
        exact ih true c hc
      | false =>
        simp [sanitizeAux, hx] at hc
        rcases hc with h | h
        · subst h; rfl
        · exact ih true c h

/-- C10: `sanitize_filename` yields a string of length at most 80 whose
characters all lie in `[A-Za-z0-9._-]`; in particular the result contains
no path separators (`/` or `\`), so output filenames derived from the
broadcaster identity are free of path separators and special characters. -/
theorem sanitize_filename_len_and_charset (s : String) :
    (sanitize_filename s).length ≤ 80 ∧
      ∀ c ∈ (sanitize_filename s).data,
        allowedFilenameChar c = true ∧ c ≠ '/' ∧ c ≠ '\\' := by
  constructor
  · show ((sanitizeAux false s.data).take 80).length ≤ 80
    simp [List.length_take_le 80 (sanitizeAux false s.data)]
  · intro c hc
    have hmem : c ∈ sanitizeAux false s.data :=
      List.take_subset 80 (sanitizeAux false s.data) hc
    have hall : allowedFilenameChar c = true :=
      sanitizeAux_all_allowed false s.data c hmem
    refine ⟨hall, ?_, ?_⟩
    · intro hEq; rw [hEq] at hall; exact absurd hall (by decide)
    · intro hEq; rw [hEq] at hall; exact absurd hall (by decide)

theorem lastN_length_le (n : Nat) (l : List α) : (lastN n l).length ≤ n := by
  simp only [lastN, List.length_drop]
  omega

/-- C7: with cooldown ≥ 1 and a transition pool holding strictly more than
`cooldown` distinct assets, every selection avoids the last `cooldown`
recorded picks (and is always drawn from the configured transition list);
the filter falls back to the full list only when it would empty the pool,
which the size hypothesis rules out. -/
theorem weightedTransitionChoice_cooldown (transitions : List String)
    (cooldown : Nat) (recent : List String) (k : Nat) (c : String)
    (hcd : 1 ≤ cooldown) (hsize : cooldown < transitions.dedup.length)
    (hpick : weightedTransitionChoice transitions cooldown recent k = some c) :
    c ∉ lastN cooldown recent ∧ c ∈ transitions := by
  have hne : transitions ≠ [] := by
    intro h
    rw [h] at hsize
    simp at hsize
  unfold weightedTransitionChoice at hpick
  rw [if_neg hne] at hpick
  by_cases hcr : cooldown ≠ 0 ∧ recent ≠ []
  · simp only [if_pos hcr] at hpick
    set filtered := transitions.filter (fun t => t ∉ lastN cooldown recent)
      with hfdef
    have hfne : filtered ≠ [] := by
      intro hfe
      have hall : ∀ t ∈ transitions, t ∈ lastN cooldown recent := by
        intro t ht
        have := List.filter_eq_nil_iff.mp hfe t ht
        simpa using this
      have hsub : transitions.toFinset ⊆ (lastN cooldown recent).toFinset := by
        intro t ht
        rw [List.mem_toFinset] at ht ⊢
        exact hall t ht
      have h1 : transitions.toFinset.card ≤ (lastN cooldown recent).toFinset.card :=
        Finset.card_le_card hsub
      have h2 : (lastN cooldown recent).toFinset.card ≤ (lastN cooldown recent).length :=
        (lastN cooldown recent).toFinset_card_le
      have h3 : (lastN cooldown recent).length ≤ cooldown := lastN_length_le _ _
      rw [List.card_toFinset] at h1
      omega
    rw [if_neg hfne] at hpick
    have hmem : c ∈ filtered := List.get?_mem hpick
    rw [hfdef, List.mem_filter] at hmem
    refine ⟨?_, hmem.1⟩
    simpa using hmem.2
  · simp only [if_neg hcr] at hpick
    have hrec : recent = [] := by
      by_contra hr
      exact hcr ⟨by omega, hr⟩
    refine ⟨?_, List.get?_mem hpick⟩
    rw [hrec]
    simp [lastN]

/-- Witness for the cooldown theorem: pool `["a", "b"]`, cooldown 1, recent
history `["a"]`, index 0 selects `"b"`, which avoids the last pick. -/
theorem weightedTransitionChoice_cooldown_witness :
    weightedTransitionChoice ["a", "b"] 1 ["a"] 0 = some "b" ∧
      "b" ∉ lastN 1 ["a"] ∧ "b" ∈ ["a", "b"] :=
  ⟨by decide, weightedTransitionChoice_cooldown ["a", "b"] 1 ["a"] 0 "b"
    (by decide) (by decide) (by decide)⟩

theorem buildComps_length_le (n : Nat) (fuel : Nat) (l : List ClipRow) :
    (buildComps n fuel l).length ≤ fuel := by
  induction fuel generalizing l with
  | zero => cases l <;> simp [buildComps]
  | succ k ih =>
    cases l with
    | nil => simp [buildComps]
    | cons c rest =>
      simp only [buildComps, List.length_cons]
      have := ih ((c :: rest).drop n)
      omega

theorem buildComps_join_sublist (n : Nat) (fuel : Nat) (l : List ClipRow) :
    (buildComps n fuel l).flatten.Sublist l := by
  induction fuel generalizing l with
  | zero => cases l <;> simp [buildComps]
  | succ k ih =>
    cases l with
    | nil => simp [buildComps]
    | cons c rest =>
      simp only [buildComps, List.flatten_cons]
      calc ((c :: rest).take n ++ (buildComps n k ((c :: rest).drop n)).flatten).Sublist
            ((c :: rest).take n ++ (c :: rest).drop n) :=
        (ih _).append_left _
        _ = c :: rest := List.take_append_drop n (c :: rest)

theorem buildComps_mem_length_le (n : Nat) (fuel : Nat) (l : List ClipRow) :
    ∀ comp ∈ buildComps n fuel l, comp.length ≤ n := by
  induction fuel generalizing l with
  | zero => cases l <;> simp [buildComps]
  | succ k ih =>
    cases l with
    | nil => simp [buildComps]
    | cons c rest =>
      intro comp hcomp
      simp only [buildComps, List.mem_cons] at hcomp
      rcases hcomp with h | h
      · subst h
        simp only [List.length_take]
        omega
      · exact ih _ comp h

/-- C8: `create_compilations_from` returns at most `amountOfCompilations`
compilations, each holding only clips whose view count meets the threshold,
each of size at most `amountOfClips`; with distinct input clips, no clip
appears in two compilations and none appears twice in one compilation. -/
theorem create_compilations_from_spec (threshold : Int)
    (nClips nComps : Nat) (shuffle : List ClipRow → List ClipRow)
    (clips : List ClipRow)
    (hperm : (shuffle (eligibleClips threshold clips)).Perm
      (eligibleClips threshold clips)) :
    (create_compilations_from threshold nClips nComps shuffle clips).length ≤ nComps ∧
    (∀ comp ∈ create_compilations_from threshold nClips nComps shuffle clips,
      comp.length ≤ nClips) ∧
    (∀ comp ∈ create_compilations_from threshold nClips nComps shuffle clips,
      ∀ c ∈ comp, threshold ≤ c.views) ∧
    (clips.Nodup →
      (∀ comp ∈ create_compilations_from threshold nClips nComps shuffle clips,
        comp.Nodup) ∧
      (create_compilations_from threshold nClips nComps shuffle clips).Pairwise
        List.Disjoint) := by
  refine ⟨buildComps_length_le _ _ _, buildComps_mem_length_le _ _ _, ?_, ?_⟩
  · intro comp hcomp c hc
    have hflat : c ∈ (buildComps nClips nComps
        (shuffle (eligibleClips threshold clips))).flatten :=
      List.mem_flatten.mpr ⟨comp, hcomp, hc⟩
    have hshuf : c ∈ shuffle (eligibleClips threshold clips) :=
      (buildComps_join_sublist _ _ _).subset hflat
    have helig : c ∈ eligibleClips threshold clips := hperm.mem_iff.mp hshuf
    have := (List.mem_filter.mp helig).2
    simpa using this
  · intro hnd
    have helig : (eligibleClips threshold clips).Nodup := hnd.filter _
    have hshuf : (shuffle (eligibleClips threshold clips)).Nodup :=
      hperm.nodup_iff.mpr helig
    have hflat : (buildComps nClips nComps
        (shuffle (eligibleClips threshold clips))).flatten.Nodup :=
      hshuf.sublist (buildComps_join_sublist _ _ _)
    have := List.nodup_flatten.mp hflat
    exact ⟨this.1, this.2⟩

/-- Witness for `create_compilations_from_spec`: 5 eligible clips,
`clipsPerCompilation = 3`, `compilations = 2`, threshold 0, identity
shuffle — exactly 2 compilations are produced, the bound and membership
facts hold at the concrete partition `[[w1, w2, w3], [w4, w5]]`, and the
compilations are pairwise disjoint. -/
theorem create_compilations_from_witness :
    (create_compilations_from 0 3 2 id clips5).length = 2 ∧
    (create_compilations_from 0 3 2 id clips5).length ≤ 2 ∧
    ([rowW1, rowW2, rowW3] : List ClipRow).length ≤ 3 ∧
    (0 : Int) ≤ rowW4.views ∧
    ([rowW1, rowW2, rowW3] : List ClipRow).Nodup ∧
    (create_compilations_from 0 3 2 id clips5).Pairwise List.Disjoint :=
  ⟨by decide,
    (create_compilations_from_spec 0 3 2 id clips5 (List.Perm.refl _)).1,
    (create_compilations_from_spec 0 3 2 id clips5 (List.Perm.refl _)).2.1
      [rowW1, rowW2, rowW3] (by decide),
    (create_compilations_from_spec 0 3 2 id clips5 (List.Perm.refl _)).2.2.1
      [rowW4, rowW5] (by decide) rowW4 (by decide),
    ((create_compilations_from_spec 0 3 2 id clips5
      (List.Perm.refl _)).2.2.2 (by decide)).1 [rowW1, rowW2, rowW3]
      (by decide),
    ((create_compilations_from_spec 0 3 2 id clips5
      (List.Perm.refl _)).2.2.2 (by decide)).2⟩

theorem ensureTranscoded_hit (e : CacheEnv) (hname : ¬ e.name = "")
    (hsrc : e.srcExists = true) (hreuse : reuseOk e = true) :
    ensureTranscoded e =
      ⟨some (relPath e.name), e.entry, [], true, e.dstExists⟩ := by
  simp [ensureTranscoded, hname, hsrc, hreuse]

theorem ensureTranscoded_encode_ok (e : CacheEnv) (hname : ¬ e.name = "")
    (hsrc : e.srcExists = true) (hshut : e.shutdown = false)
    (hmiss : reuseOk e = false) (hrc1 : e.rc1 = true) :
    ensureTranscoded e =
      ⟨some (relPath e.name), some (desiredSilentB e, desiredAudnormB e),
        [encKind1 e], true, true⟩ := by
  simp [ensureTranscoded, hname, hsrc, hshut, hmiss, hrc1]

theorem reuseOk_iff (e : CacheEnv) :
    reuseOk e = true ↔
      (e.dstExists = true ∧ e.rebuildTrans = false ∧
        (manifestMatches e = true ∨
          (e.entry = none ∧ desiredSilentB e = false ∧
            desiredAudnormB e = false))) := by
  simp [reuseOk, Bool.and_eq_true, Bool.or_eq_true, Bool.not_eq_true',
    beq_iff_eq, and_assoc]

theorem desiredSilentB_afterCall (e : CacheEnv) :
    desiredSilentB (afterCall e) = desiredSilentB e := rfl

theorem desiredAudnormB_afterCall (e : CacheEnv) :
    desiredAudnormB (afterCall e) = desiredAudnormB e := rfl

theorem reuseOk_false_of_entry_mismatch (x : CacheEnv) (s a : Bool)
    (hx : x.entry = some (s, a))
    (hmm : ((s == desiredSilentB x) && (a == desiredAudnormB x)) = false) :
    reuseOk x = false := by
  simp [reuseOk, manifestMatches, hx, hmm]

theorem reuseOk_false_of_none_audnorm (x : CacheEnv)
    (hx : x.entry = none) (hdA : desiredAudnormB x = true) :
    reuseOk x = false := by
  simp [reuseOk, manifestMatches, hx, hdA]

/-- C2 (amended): with the source present and no shutdown, a call is a
cache hit (returns the cached copy, launching no encode) iff the cache copy
exists, rebuild is not forced, and either the manifest entry matches the
desired parameters exactly, or no manifest entry exists and neither
silence nor loudness normalization is desired.  Moreover two successive
calls with identical desired parameters encode only on the first, and
flipping the loudness-normalization flag between calls forces exactly one
rebuild. -/
theorem ensureTranscoded_cache_spec (e : CacheEnv) (hname : ¬ e.name = "")
    (hsrc : e.srcExists = true) (hshut : e.shutdown = false) :
    ((((ensureTranscoded e).ret.isSome ∧ (ensureTranscoded e).encodes = [])) ↔
      (e.dstExists = true ∧ e.rebuildTrans = false ∧
        (manifestMatches e = true ∨
          (e.entry = none ∧ desiredSilentB e = false ∧
            desiredAudnormB e = false)))) ∧
    (e.rebuildTrans = false → e.rc1 = true → reuseOk e = false →
      (ensureTranscoded e).encodes ≠ [] ∧
      (ensureTranscoded (afterCall e)).encodes = [] ∧
      (ensureTranscoded (afterCall e)).ret.isSome) ∧
    (e.rebuildTrans = false → e.rc1 = true → desiredSilentB e = false →
      (ensureTranscoded (flipAudNorm (afterCall e))).encodes =
        [encKind1 (flipAudNorm (afterCall e))] ∧
      (ensureTranscoded (flipAudNorm (afterCall e))).ret.isSome) := by
  refine ⟨?_, ?_, ?_⟩
  · by_cases h : reuseOk e = true
    · rw [ensureTranscoded_hit e hname hsrc h]
      exact iff_of_true ⟨rfl, rfl⟩ ((reuseOk_iff e).mp h)
    · refine iff_of_false ?_ fun hr => h ((reuseOk_iff e).mpr hr)
      rintro ⟨hs, henc⟩
      rw [Bool.not_eq_true] at h
      simp only [ensureTranscoded, hname, hsrc, hshut, h, if_false,
        Bool.false_eq_true, ite_false, if_neg] at hs henc
      split_ifs at henc <;> simp_all
  · intro hreb hrc1 hmiss
    rw [ensureTranscoded_encode_ok e hname hsrc hshut hmiss hrc1]
    have hreuse2 : reuseOk (afterCall e) = true := by
      have hent : (afterCall e).entry =
          some (desiredSilentB e, desiredAudnormB e) := by
        simp [afterCall, ensureTranscoded_encode_ok e hname hsrc hshut hmiss hrc1]
      have hdst : (afterCall e).dstExists = true := by
        simp [afterCall, ensureTranscoded_encode_ok e hname hsrc hshut hmiss hrc1]
      have hrebc : (afterCall e).rebuildTrans = false := hreb
      rw [reuseOk_iff]
      refine ⟨hdst, hrebc, Or.inl ?_⟩
      rw [manifestMatches, hent, desiredSilentB_afterCall,
        desiredAudnormB_afterCall]
      simp
    have hname2 : ¬ (afterCall e).name = "" := hname
    have hsrc2 : (afterCall e).srcExists = true := hsrc
    rw [ensureTranscoded_hit (afterCall e) hname2 hsrc2 hreuse2]
    exact ⟨by simp, rfl, rfl⟩
  · intro hreb hrc1 hds
    have hda : desiredAudnormB e = e.audNorm := by
      rw [desiredAudnormB, hds]; simp
    have hds2 : desiredSilentB (flipAudNorm (afterCall e)) =
        desiredSilentB e := rfl
    have hda2 : desiredAudnormB (flipAudNorm (afterCall e)) = !e.audNorm := by
      rw [desiredAudnormB, hds2, hds]
      simp [flipAudNorm, afterCall]
    have hmain : reuseOk (flipAudNorm (afterCall e)) = false := by
      by_cases h : reuseOk e = true
      · have hent : (afterCall e).entry = e.entry := by
          simp [afterCall, ensureTranscoded_hit e hname hsrc h]
        rcases ((reuseOk_iff e).mp h) with ⟨hdst, hrb, hcase⟩
        rcases hcase with hm | ⟨hnone, _, hdA⟩
        · rcases hee : e.entry with _ | ⟨s, a⟩
          · rw [manifestMatches, hee] at hm; simp at hm
          · rw [manifestMatches, hee, hds, hda] at hm
            simp only [Bool.and_eq_true, beq_iff_eq] at hm
            refine reuseOk_false_of_entry_mismatch _ s a ?_ ?_
            · show (afterCall e).entry = some (s, a)
              rw [hent, hee]
            · rw [hds2, hda2, hds, hm.1, hm.2]
              cases e.audNorm <;> simp
        · have hAN : e.audNorm = false := by rw [← hda]; exact hdA
          refine reuseOk_false_of_none_audnorm _ ?_ ?_
          · show (afterCall e).entry = none
            rw [hent, hnone]
          · rw [hda2, hAN]
            rfl
      · rw [Bool.not_eq_true] at h
        have hent : (afterCall e).entry =
            some (desiredSilentB e, desiredAudnormB e) := by
          simp [afterCall, ensureTranscoded_encode_ok e hname hsrc hshut h hrc1]
        refine reuseOk_false_of_entry_mismatch _ (desiredSilentB e)
          (desiredAudnormB e) hent ?_
        rw [hds2, hda2, hds, hda]
        cases e.audNorm <;> simp
    have hname2 : ¬ (flipAudNorm (afterCall e)).name = "" := hname
    have hsrc2 : (flipAudNorm (afterCall e)).srcExists = true := hsrc
    have hshut2 : (flipAudNorm (afterCall e)).shutdown = false := hshut
    have hrc12 : (flipAudNorm (afterCall e)).rc1 = true := hrc1
    rw [ensureTranscoded_encode_ok _ hname2 hsrc2 hshut2 hmain hrc12]
    exact ⟨rfl, by simp⟩

/-- C2 counterexample: with the cache copy present, rebuild not forced but
*no* manifest entry for the name (and neither silence nor normalization
desired), `_ensure_transcoded` returns the cached copy without encoding —
a cache hit although the manifest entry does not match the desired
parameters (it does not exist), refuting the claimed "if and only if". -/
theorem ensureTranscoded_iff_counterexample :
    ¬ (((ensureTranscoded envC2NoEntry).ret.isSome ∧
          (ensureTranscoded envC2NoEntry).encodes = []) ↔
        (envC2NoEntry.dstExists = true ∧ envC2NoEntry.rebuildTrans = false ∧
          manifestMatches envC2NoEntry = true)) := by
  decide

/-- Witness for `ensureTranscoded_cache_spec` at the fresh-build
environment `envC2`: the first call encodes, the repeat call is a cache
hit, and the flag-flip call re-encodes exactly once. -/
theorem ensureTranscoded_cache_spec_witness :
    ((((ensureTranscoded envC2).ret.isSome ∧
        (ensureTranscoded envC2).encodes = [])) ↔
      (envC2.dstExists = true ∧ envC2.rebuildTrans = false ∧
        (manifestMatches envC2 = true ∨
          (envC2.entry = none ∧ desiredSilentB envC2 = false ∧
            desiredAudnormB envC2 = false)))) ∧
    ((ensureTranscoded envC2).encodes ≠ [] ∧
      (ensureTranscoded (afterCall envC2)).encodes = [] ∧
      (ensureTranscoded (afterCall envC2)).ret.isSome) ∧
    ((ensureTranscoded (flipAudNorm (afterCall envC2))).encodes =
        [encKind1 (flipAudNorm (afterCall envC2))] ∧
      (ensureTranscoded (flipAudNorm (afterCall envC2))).ret.isSome) :=
  ⟨(ensureTranscoded_cache_spec envC2 (by decide) rfl rfl).1,
    (ensureTranscoded_cache_spec envC2 (by decide) rfl rfl).2.1 rfl rfl
      (by decide),
    (ensureTranscoded_cache_spec envC2 (by decide) rfl rfl).2.2 rfl rfl
      (by decide)⟩

/-- C4: the fallback ladder does run for a non-forced-silent asset
(no-loudnorm retry, then silent-audio synthesis, returning `None` when all
three attempts fail, and a path when the silent fallback succeeds) — but
for a forced-silent asset whose only encode attempt fails, control falls
through to the "Successful build" block: the cache path is returned (with
a manifest entry written) instead of the claimed `None`. -/
theorem ensureTranscoded_failed_encode_fallthrough :
    (envC4.rc1 = false ∧
      (ensureTranscoded envC4).ret = some "_trans/static.mp4" ∧
      (ensureTranscoded envC4).encodes = [EncKind.forcedSilent] ∧
      (ensureTranscoded envC4).entry = some (true, false)) ∧
    ((ensureTranscoded envC4Ladder).ret = none ∧
      (ensureTranscoded envC4Ladder).encodes =
        [EncKind.withAudio true, EncKind.retryNoLoudnorm,
          EncKind.silentFallback]) ∧
    ((ensureTranscoded envC4Silent).ret = some "_trans/t.mp4" ∧
      (ensureTranscoded envC4Silent).entry = some (true, false)) := by
  decide

/-- C5: a build that succeeds only via the no-loudnorm retry is recorded
in the manifest with the *desired* parameters `(silent := false,
aud_norm := true)`, not the actually-used `aud_norm := false` — the
fall-through success block writes the desired flags; by contrast the
silent-audio fallback branch does record its actual parameters
`(true, false)`, and in both cases the cache-relative path is returned. -/
theorem ensureTranscoded_manifest_records_desired_not_actual :
    ((ensureTranscoded envC5).ret = some "_trans/t.mp4" ∧
      (ensureTranscoded envC5).encodes =
        [EncKind.withAudio true, EncKind.retryNoLoudnorm] ∧
      (ensureTranscoded envC5).entry = some (false, true)) ∧
    ((ensureTranscoded envC5Silent).ret = some "_trans/u.mp4" ∧
      (ensureTranscoded envC5Silent).encodes =
        [EncKind.withAudio true, EncKind.retryNoLoudnorm,
          EncKind.silentFallback] ∧
      (ensureTranscoded envC5Silent).entry = some (true, false)) := by
  decide

/-- C6 counterexample: with the shutdown signal already set, the final
concat of `stage_two` still spawns its child process (the runner launches
before its first poll), and `_ensure_transcoded` still launches the
ffprobe audio probe before any shutdown check — so it is not the case
that every operation observes the signal before spawning. -/
theorem shutdown_spawn_counterexample :
    (stageTwoStep true "ffmpeg -f concat ..." 0).spawned =
      ["ffmpeg -f concat ..."] ∧
    (stageTwoStep true "ffmpeg -f concat ..." 0).spawned ≠ [] ∧
    (ensureTranscoded envC6).probeRun = true ∧ envC6.shutdown = true := by
  decide

/-- C6 (amended): once the shutdown signal is set, the download,
thumbnail, normalize and overlay steps spawn no process and return a
skip/failure code, and the asset cache launches no encoder; but the
asset cache's ffprobe audio probe and the final concat are invoked
without a prior check — the runner spawns them and then returns the
synthetic interrupted result within one poll interval. -/
theorem shutdown_blocks_new_processes (finalExists rebuild previewExists
    resizeOk enableOverlay : Bool) (cmd probeCmd normCmd ovlCmd : String)
    (rc rcNorm rcOvl : Int) (e : CacheEnv) (hsd : e.shutdown = true) :
    (downloadClip true finalExists rebuild cmd rc).2 = [] ∧
    ((downloadClip true finalExists rebuild cmd rc).1 = 1 ∨
      (downloadClip true finalExists rebuild cmd rc).1 = 2) ∧
    (createThumbnail true previewExists rebuild cmd rc resizeOk).2 = [] ∧
    (processClip true finalExists rebuild enableOverlay probeCmd normCmd
      ovlCmd rcNorm rcOvl).2 = [] ∧
    (ensureTranscoded e).encodes = [] ∧
    (stageTwoStep true cmd rc).rc = 1 := by
  refine ⟨?_, ?_, ?_, ?_, ?_, ?_⟩
  · by_cases h : (finalExists && !rebuild) = true <;>
      simp [downloadClip, h]
  · by_cases h : (finalExists && !rebuild) = true <;>
      simp [downloadClip, h]
  · by_cases h : (previewExists && !rebuild) = true <;>
      simp [createThumbnail, h]
  · by_cases h : (finalExists && !rebuild) = true <;>
      simp [processClip, h]
  · by_cases h1 : e.name = ""
    · simp [ensureTranscoded, h1]
    · by_cases h2 : e.srcExists = false
      · simp [ensureTranscoded, h1, h2]
      · by_cases h3 : reuseOk e = true <;>
          simp [ensureTranscoded, h1, h2, h3, hsd]
  · simp [stageTwoStep, runProcCancellable]

/-- Witness for `shutdown_blocks_new_processes` at concrete inputs. -/
theorem shutdown_blocks_new_processes_witness :
    (downloadClip true false false "yt-dlp u" 0).2 = [] ∧
    ((downloadClip true false false "yt-dlp u" 0).1 = 1 ∨
      (downloadClip true false false "yt-dlp u" 0).1 = 2) ∧
    (createThumbnail true false false "yt-dlp u" 0 true).2 = [] ∧
    (processClip true false false true "ffprobe c" "ffmpeg n" "ffmpeg o"
      0 0).2 = [] ∧
    (ensureTranscoded envC6).encodes = [] ∧
    (stageTwoStep true "yt-dlp u" 0).rc = 1 :=
  shutdown_blocks_new_processes false false false true true "yt-dlp u"
    "ffprobe c" "ffmpeg n" "ffmpeg o" 0 0 0 envC6 rfl

theorem SpacerOK.append {relS : String} {a b : List Segment}
    (ha : SpacerOK relS a) (hb : SpacerOK relS b) : SpacerOK relS (a ++ b) := by
  induction ha with
  | nil => exact hb
  | asset r h ih => exact SpacerOK.asset r ih
  | clip id h ih => exact SpacerOK.clip id ih

theorem spacerOK_of_assets (relS : String) (l : List Segment)
    (h : ∀ s ∈ l, ∃ r, s = Segment.asset r) : SpacerOK relS l := by
  induction l with
  | nil => exact SpacerOK.nil
  | cons x xs ih =>
    obtain ⟨r, hr⟩ := h x (List.mem_cons_self x xs)
    subst hr
    exact SpacerOK.asset r (ih fun s hs => h s (List.mem_cons_of_mem _ hs))

theorem appendTransSeg_toList_assets (ensureT : String → Option String)
    (name : String) :
    ∀ s ∈ (appendTransSeg ensureT name).toList, ∃ r, s = Segment.asset r := by
  intro s hs
  unfold appendTransSeg at hs
  by_cases h : name = ""
  · simp [h] at hs
  · rcases he : ensureT name with _ | rel
    · simp [h, he] at hs
    · simp [h, he] at hs
      exact ⟨rel, hs⟩

theorem appendTransSeg_some_asset (ensureT : String → Option String)
    (name : String) (s : Segment)
    (h : appendTransSeg ensureT name = some s) : ∃ r, s = Segment.asset r := by
  unfold appendTransSeg at h
  by_cases hn : name = ""
  · simp [hn] at h
  · rcases he : ensureT name with _ | rel
    · simp [hn, he] at h
    · simp [hn, he] at h
      exact ⟨rel, h.symm⟩

theorem spacer_eval (cfg : SeqCfg) (ensureT : String → Option String)
    (relS : String) (hstat : ¬ cfg.staticName = "")
    (hens : ensureT cfg.staticName = some relS) :
    (appendTransSeg ensureT cfg.staticName).toList = [Segment.asset relS] := by
  simp [appendTransSeg, hstat, hens]

theorem okStep_spacerOK (cfg : SeqCfg) (ensureT : String → Option String)
    (relS : String) (hstat : ¬ cfg.staticName = "")
    (hens : ensureT cfg.staticName = some relS)
    (decs : List (Bool × Nat)) (recent : List String) (clip : ClipRow) :
    SpacerOK relS (okStep cfg ensureT decs recent clip).1 := by
  have hsp := spacer_eval cfg ensureT relS hstat hens
  unfold okStep
  rw [hsp]
  by_cases hcond : cfg.noRand = false ∧ cfg.transitionsList ≠ []
  · rw [if_pos hcond]
    cases decs with
    | nil => exact SpacerOK.clip _ SpacerOK.nil
    | cons d decs2 =>
      obtain ⟨roll, k⟩ := d
      by_cases hroll : roll = true
      · rw [hroll]
        simp only [if_true]
        rcases hch : weightedTransitionChoice cfg.transitionsList
            cfg.transCooldown recent k with _ | t
        · simp only [hch]
          exact SpacerOK.clip _ SpacerOK.nil
        · simp only [hch]
          rcases hap : appendTransSeg ensureT t with _ | tseg
          · simp only [hap]
            exact SpacerOK.clip _ SpacerOK.nil
          · simp only [hap]
            obtain ⟨r, hr⟩ := appendTransSeg_some_asset ensureT t tseg hap
            subst hr
            exact SpacerOK.clip _ (SpacerOK.asset _ (SpacerOK.asset _
              SpacerOK.nil))
      · rw [Bool.not_eq_true] at hroll
        rw [hroll]
        simp only [Bool.false_eq_true, if_false]
        exact SpacerOK.clip _ SpacerOK.nil
  · rw [if_neg hcond]
    exact SpacerOK.clip _ SpacerOK.nil

theorem seqLoop_spacerOK (cfg : SeqCfg) (ensureT : String → Option String)
    (relS : String) (hstat : ¬ cfg.staticName = "")
    (hens : ensureT cfg.staticName = some relS)
    (results : List (ClipRow × Bool)) :
    ∀ (decs : List (Bool × Nat)) (recent : List String),
      SpacerOK relS (seqLoop cfg ensureT decs recent results) := by
  induction results with
  | nil => intro decs recent; exact SpacerOK.nil
  | cons r rest ih =>
    intro decs recent
    obtain ⟨clip, ok⟩ := r
    by_cases hok : ok = true
    · rw [hok]
      simp only [seqLoop, if_true]
      exact SpacerOK.append
        (okStep_spacerOK cfg ensureT relS hstat hens decs recent clip)
        (ih _ _)
    · rw [Bool.not_eq_true] at hok
      rw [hok]
      simp only [seqLoop, Bool.false_eq_true, if_false]
      by_cases hskip : cfg.skipBad = true
      · rw [if_pos hskip]; exact ih _ _
      · rw [if_neg hskip]; exact SpacerOK.nil

theorem spacerOK_get? (relS : String) (segs : List Segment)
    (h : SpacerOK relS segs) :
    ∀ i id, segs.get? i = some (Segment.clip id) →
      segs.get? (i + 1) = some (Segment.asset relS) := by
  induction h with
  | nil => intro i id hi; simp at hi
  | asset r hrest ih =>
    intro i id hi
    cases i with
    | zero => simp at hi
    | succ j => exact ih j id hi
  | clip id0 hrest ih =>
    intro i id hi
    cases i with
    | zero => rfl
    | succ j =>
      cases j with
      | zero => simp at hi
      | succ m => exact ih m id hi

theorem introSegs_assets (cfg : SeqCfg) (ensureT : String → Option String)
    (introPick : Nat) :
    ∀ s ∈ introSegs cfg ensureT introPick, ∃ r, s = Segment.asset r := by
  intro s hs
  unfold introSegs at hs
  split at hs
  · simp at hs
  · split at hs
    · next iseg ha =>
      rcases List.mem_cons.mp hs with h | h
      · subst h; exact appendTransSeg_some_asset ensureT _ _ ha
      · exact appendTransSeg_toList_assets ensureT _ s h
    · simp at hs

theorem outroSegs_assets (cfg : SeqCfg) (ensureT : String → Option String)
    (outroPick : Nat) :
    ∀ s ∈ outroSegs cfg ensureT outroPick, ∃ r, s = Segment.asset r := by
  intro s hs
  unfold outroSegs at hs
  split at hs
  · simp at hs
  · exact appendTransSeg_toList_assets ensureT _ s hs

/-- C1 (amended): whenever the spacer (static) asset builds successfully
(`ensureT` returns a path for it), every clip segment in the concat script
produced by `write_concat_file` is immediately followed by a segment
referencing that spacer asset — across intro, per-clip and outro parts,
for every configuration, preparation outcome and random draw. -/
theorem writeConcat_clip_followed_by_spacer (cfg : SeqCfg)
    (ensureT : String → Option String) (relS : String)
    (introPick outroPick : Nat) (decs : List (Bool × Nat))
    (results : List (ClipRow × Bool))
    (hstat : ¬ cfg.staticName = "")
    (hens : ensureT cfg.staticName = some relS) :
    ∀ i id,
      (writeConcatSegs cfg ensureT introPick outroPick decs results).get? i =
        some (Segment.clip id) →
      (writeConcatSegs cfg ensureT introPick outroPick decs
        results).get? (i + 1) = some (Segment.asset relS) := by
  apply spacerOK_get?
  unfold writeConcatSegs
  refine SpacerOK.append (SpacerOK.append ?_ ?_) ?_
  · exact spacerOK_of_assets relS _ (introSegs_assets cfg ensureT introPick)
  · exact seqLoop_spacerOK cfg ensureT relS hstat hens results decs []
  · exact spacerOK_of_assets relS _ (outroSegs_assets cfg ensureT outroPick)

/-- C1 counterexample: when the spacer (static) asset is unavailable the
clip segment of a successfully prepared clip is followed by no spacer at
all — the script is just the clip line — refuting the claim as stated for
arbitrary configurations. -/
theorem writeConcat_spacer_counterexample :
    writeConcatSegs cfgC1 ensNone 0 0 [] [(rowC1, true)] =
      [Segment.clip "c1"] ∧
    ¬ (∀ i id,
        (writeConcatSegs cfgC1 ensNone 0 0 [] [(rowC1, true)]).get? i =
          some (Segment.clip id) →
        ∃ rel,
          (writeConcatSegs cfgC1 ensNone 0 0 [] [(rowC1, true)]).get?
            (i + 1) = some (Segment.asset rel)) := by
  constructor
  · rfl
  · intro h
    obtain ⟨rel, hrel⟩ := h 0 "c1" (by rfl)
    have hnone :
        (writeConcatSegs cfgC1 ensNone 0 0 [] [(rowC1, true)]).get? 1 =
          none := by rfl
    rw [hnone] at hrel
    exact Option.noConfusion hrel

/-- Witness for `writeConcat_clip_followed_by_spacer`: with a working
asset cache, the clip segment at position 0 is followed by the spacer. -/
theorem writeConcat_clip_followed_by_spacer_witness :
    (writeConcatSegs cfgC1 ensFixed 0 0 [] [(rowC1, true)]).get? 1 =
      some (Segment.asset "_trans/static.mp4") :=
  writeConcat_clip_followed_by_spacer cfgC1 ensFixed "_trans/static.mp4"
    0 0 [] [(rowC1, true)] (by decide) rfl 0 "c1" rfl

theorem seqLoop_skip_filter (cfg : SeqCfg) (ensureT : String → Option String)
    (hskip : cfg.skipBad = true) (results : List (ClipRow × Bool)) :
    ∀ (decs : List (Bool × Nat)) (recent : List String),
      seqLoop cfg ensureT decs recent results =
        seqLoop cfg ensureT decs recent
          (results.filter (fun r => r.2)) := by
  induction results with
  | nil => intro decs recent; rfl
  | cons r rest ih =>
    intro decs recent
    obtain ⟨clip, ok⟩ := r
    cases ok with
    | true =>
      have hf : ((clip, true) :: rest).filter (fun r => r.2) =
          (clip, true) :: rest.filter (fun r => r.2) := by simp
      rw [hf]
      simp only [seqLoop, if_true]
      rw [ih]
    | false =>
      have hf : ((clip, false) :: rest).filter (fun r => r.2) =
          rest.filter (fun r => r.2) := by simp
      rw [hf]
      simp only [seqLoop, Bool.false_eq_true, if_false, hskip, if_true]
      exact ih _ _

theorem seqLoop_abort_takeWhile (cfg : SeqCfg)
    (ensureT : String → Option String) (hskip : cfg.skipBad = false)
    (results : List (ClipRow × Bool)) :
    ∀ (decs : List (Bool × Nat)) (recent : List String),
      seqLoop cfg ensureT decs recent results =
        seqLoop cfg ensureT decs recent
          (results.takeWhile (fun r => r.2)) := by
  induction results with
  | nil => intro decs recent; rfl
  | cons r rest ih =>
    intro decs recent
    obtain ⟨clip, ok⟩ := r
    cases ok with
    | true =>
      have hf : ((clip, true) :: rest).takeWhile (fun r => r.2) =
          (clip, true) :: rest.takeWhile (fun r => r.2) := by
        simp [List.takeWhile_cons]
      rw [hf]
      simp only [seqLoop, if_true]
      rw [ih]
    | false =>
      have hf : ((clip, false) :: rest).takeWhile (fun r => r.2) = [] := by
        simp [List.takeWhile_cons]
      rw [hf]
      simp only [seqLoop, Bool.false_eq_true, if_false, hskip]

/-- C3 (amended): a failed clip contributes no segment.  With
`skip_bad_clip` set, the failed clip is dropped and sequencing continues
with the remaining clips exactly as if the failed clip were absent; with
`skip_bad_clip` unset, the per-clip loop stops at the first failure — no
segment is emitted for it or for any later clip — but sequencing then
still completes: the outro is still emitted and the (truncated) concat
script is still written, as if the results list ended just before the
failure. -/
theorem writeConcat_skip_bad_policy (cfg : SeqCfg)
    (ensureT : String → Option String) (introPick outroPick : Nat)
    (decs : List (Bool × Nat)) (results : List (ClipRow × Bool)) :
    (cfg.skipBad = true →
      writeConcatSegs cfg ensureT introPick outroPick decs results =
        writeConcatSegs cfg ensureT introPick outroPick decs
          (results.filter (fun r => r.2))) ∧
    (cfg.skipBad = false →
      writeConcatSegs cfg ensureT introPick outroPick decs results =
        writeConcatSegs cfg ensureT introPick outroPick decs
          (results.takeWhile (fun r => r.2))) := by
  constructor
  · intro hskip
    unfold writeConcatSegs
    rw [seqLoop_skip_filter cfg ensureT hskip results]
  · intro hskip
    unfold writeConcatSegs
    rw [seqLoop_abort_takeWhile cfg ensureT hskip results]

/-- C3 counterexample: with `skip_bad_clip = false` and clip 2's
preparation failed, the build does not abort at the failure — the loop
merely breaks, after which the outro segment is still appended and the
concat script is still produced, so segments are emitted after the point
where the failure was encountered. -/
theorem writeConcat_abort_counterexample :
    writeConcatSegs cfgC3 ensFixed 0 0 [] resC3 =
      [Segment.clip "c1", Segment.asset "_trans/static.mp4",
        Segment.asset "_trans/outro.mp4"] ∧
    writeConcatSegs cfgC3 ensFixed 0 0 [] resC3 ≠
      [Segment.clip "c1", Segment.asset "_trans/static.mp4"] := by
  constructor
  · rfl
  · decide

/-- Witness for `writeConcat_skip_bad_policy` at the three-clip scenario
with clip 2 failed, under both policies. -/
theorem writeConcat_skip_bad_policy_witness :
    (writeConcatSegs cfgC3Skip ensFixed 0 0 [] resC3 =
      writeConcatSegs cfgC3Skip ensFixed 0 0 []
        (resC3.filter (fun r => r.2))) ∧
    (writeConcatSegs cfgC3 ensFixed 0 0 [] resC3 =
      writeConcatSegs cfgC3 ensFixed 0 0 []
        (resC3.takeWhile (fun r => r.2))) :=
  ⟨(writeConcat_skip_bad_policy cfgC3Skip ensFixed 0 0 [] resC3).1 rfl,
    (writeConcat_skip_bad_policy cfgC3 ensFixed 0 0 [] resC3).2 rfl⟩

theorem natCharsAux_zero (fuel : Nat) : natCharsAux fuel 0 = [] := by
  cases fuel <;> simp [natCharsAux]

theorem natCharsAux_fuel (f1 : Nat) : ∀ f2 n : Nat, n ≤ f1 → n ≤ f2 →
    natCharsAux f1 n = natCharsAux f2 n := by
  induction f1 with
  | zero =>
    intro f2 n h1 h2
    have : n = 0 := by omega
    subst this
    rw [natCharsAux_zero, natCharsAux_zero]
  | succ k ih =>
    intro f2 n h1 h2
    by_cases h0 : n = 0
    · subst h0; rw [natCharsAux_zero, natCharsAux_zero]
    · cases f2 with
      | zero => omega
      | succ m =>
        show natCharsAux (k + 1) n = natCharsAux (m + 1) n
        unfold natCharsAux
        rw [if_neg h0, if_neg h0]
        have hdiv : n / 10 < n := Nat.div_lt_self (by omega) (by omega)
        rw [ih (m) (n / 10) (by omega) (by omega)]

theorem digitChar_toNat (m : Nat) (h : m < 10) :
    (Nat.digitChar m).toNat = 48 + m := by
  interval_cases m <;> rfl

theorem natCharsAux_succ (k n : Nat) (h0 : ¬ n = 0) :
    natCharsAux (k + 1) n =
      natCharsAux k (n / 10) ++ [Nat.digitChar (n % 10)] := by
  show (if n = 0 then []
    else natCharsAux k (n / 10) ++ [Nat.digitChar (n % 10)]) = _
  rw [if_neg h0]

theorem decodeAcc_append (l1 l2 : List Char) :
    ∀ a, decodeAcc a (l1 ++ l2) = decodeAcc (decodeAcc a l1) l2 := by
  induction l1 with
  | nil => intro a; rfl
  | cons c cs ih =>
    intro a
    show decodeAcc (a * 10 + (c.toNat - 48)) (cs ++ l2) =
      decodeAcc (decodeAcc (a * 10 + (c.toNat - 48)) cs) l2
    exact ih _

theorem decodeAcc_nil (a : Nat) : decodeAcc a [] = a := rfl

theorem decodeAcc_natCharsAux (fuel : Nat) : ∀ n a, n ≤ fuel →
    decodeAcc a (natCharsAux fuel n) =
      if n = 0 then a else a * 10 ^ (natCharsAux fuel n).length + n := by
  induction fuel with
  | zero =>
    intro n a h
    have : n = 0 := by omega
    subst this
    rw [natCharsAux_zero, decodeAcc_nil, if_pos rfl]
  | succ k ih =>
    intro n a h
    by_cases h0 : n = 0
    · subst h0; rw [natCharsAux_zero, decodeAcc_nil, if_pos rfl]
    · rw [if_neg h0]
      rw [natCharsAux_succ k n h0, decodeAcc_append]
      have hd : ∀ b, decodeAcc b [Nat.digitChar (n % 10)] = b * 10 + n % 10 := by
        intro b
        show decodeAcc (b * 10 + ((Nat.digitChar (n % 10)).toNat - 48)) [] = _
        rw [digitChar_toNat (n % 10) (by omega)]
        show b * 10 + (48 + n % 10 - 48) = b * 10 + n % 10
        omega
      rw [hd]
      have hdivle : n / 10 ≤ k := by
        have : n / 10 < n := Nat.div_lt_self (by omega) (by omega)
        omega
      rw [ih (n / 10) a hdivle]
      by_cases hq : n / 10 = 0
      · rw [if_pos hq]
        have hn10 : n < 10 := by omega
        have hlen : (natCharsAux k (n / 10) ++
            [Nat.digitChar (n % 10)]).length = 1 := by
          rw [hq, natCharsAux_zero]; rfl
        rw [hlen]
        have : n % 10 = n := Nat.mod_eq_of_lt hn10
        rw [this, pow_one]
      · rw [if_neg hq]
        have hlen : (natCharsAux k (n / 10) ++
            [Nat.digitChar (n % 10)]).length =
            (natCharsAux k (n / 10)).length + 1 := by
          rw [List.length_append]; rfl
        rw [hlen, pow_succ]
        have hmod := Nat.div_add_mod n 10
        calc (a * 10 ^ (natCharsAux k (n / 10)).length + n / 10) * 10 + n % 10
            = a * (10 ^ (natCharsAux k (n / 10)).length * 10) +
              (10 * (n / 10) + n % 10) := by ring
          _ = a * (10 ^ (natCharsAux k (n / 10)).length * 10) + n := by
              rw [hmod]

theorem decode_natChars (n : Nat) : decodeAcc 0 (natChars n) = n := by
  by_cases h : n = 0
  · subst h; rfl
  · unfold natChars
    rw [if_neg h, decodeAcc_natCharsAux (n + 1) n 0 (by omega), if_neg h]
    simp

theorem natChars_injective (m n : Nat) (h : natChars m = natChars n) :
    m = n := by
  have := congrArg (decodeAcc 0) h
  rwa [decode_natChars, decode_natChars] at this

theorem digitChar_toLower (m : Nat) (h : m < 10) :
    (Nat.digitChar m).toLower = Nat.digitChar m := by
  interval_cases m <;> decide

theorem natCharsAux_map_toLower (fuel : Nat) : ∀ n,
    (natCharsAux fuel n).map Char.toLower = natCharsAux fuel n := by
  induction fuel with
  | zero => intro n; rfl
  | succ k ih =>
    intro n
    by_cases h0 : n = 0
    · subst h0; rw [natCharsAux_zero]; rfl
    · rw [natCharsAux_succ k n h0, List.map_append, ih, List.map_singleton,
        digitChar_toLower (n % 10) (by omega)]

theorem natChars_map_toLower (n : Nat) :
    (natChars n).map Char.toLower = natChars n := by
  unfold natChars
  by_cases h : n = 0
  · rw [if_pos h]; decide
  · rw [if_neg h]; exact natCharsAux_map_toLower (n + 1) n

theorem strData_append (a b : String) : (a ++ b).data = a.data ++ b.data := by
  cases a; cases b; rfl

theorem candName_data (root ext : String) (k : Nat) :
    (candName root ext k).data =
      root.data ++ ('_' :: (natChars k ++ ext.data)) := by
  unfold candName natStr
  rw [strData_append, strData_append, strData_append]
  simp [List.append_assoc]

theorem lowerS_data (s : String) :
    (lowerS s).data = s.data.map Char.toLower := rfl

theorem lowerS_candName_inj (root ext : String) (k1 k2 : Nat)
    (h : lowerS (candName root ext k1) = lowerS (candName root ext k2)) :
    k1 = k2 := by
  have hd := congrArg String.data h
  rw [lowerS_data, lowerS_data, candName_data, candName_data] at hd
  simp only [List.map_append, List.map_cons] at hd
  rw [natChars_map_toLower, natChars_map_toLower] at hd
  have h1 := List.append_cancel_left hd
  have h2 := (List.cons.inj h1).2
  have h3 := List.append_cancel_right h2
  exact natChars_injective k1 k2 h3

theorem isBlocked_false_iff (used result : List String) (s : String) :
    isBlocked used result s = false ↔
      lowerS s ∉ used ∧ lowerS s ∉ result.map lowerS := by
  simp [isBlocked]

theorem isBlocked_true_mem (used result : List String) (s : String)
    (h : isBlocked used result s = true) :
    lowerS s ∈ used ++ result.map lowerS := by
  unfold isBlocked at h
  rw [Bool.or_eq_true, decide_eq_true_eq, decide_eq_true_eq] at h
  exact List.mem_append.mpr h

/-- Pigeonhole: among the first `|used| + |result| + 1` candidate names
one is free — their lowercased forms are pairwise distinct, while at most
`|used| + |result|` lowercased names can block. -/
theorem exists_free_cand (used result : List String) (root ext : String) :
    ∃ k, 1 ≤ k ∧ k ≤ used.length + result.length + 1 ∧
      isBlocked used result (candName root ext k) = false := by
  by_contra hcon
  push_neg at hcon
  have hblocked : ∀ k, 1 ≤ k → k ≤ used.length + result.length + 1 →
      isBlocked used result (candName root ext k) = true := by
    intro k h1 h2
    rcases Bool.eq_false_or_eq_true
        (isBlocked used result (candName root ext k)) with ht | hf
    · exact ht
    · exact absurd hf (hcon k h1 h2)
  set N := used.length + result.length with hN
  set B := used ++ result.map lowerS with hB
  have hBlen : B.length = N := by simp [hB, hN]
  have hsub : (Finset.Icc 1 (N + 1)).image
      (fun k => lowerS (candName root ext k)) ⊆ B.toFinset := by
    intro x hx
    rw [Finset.mem_image] at hx
    obtain ⟨k, hk, rfl⟩ := hx
    rw [Finset.mem_Icc] at hk
    rw [List.mem_toFinset]
    exact isBlocked_true_mem used result _ (hblocked k hk.1 hk.2)
  have hinj : Set.InjOn (fun k => lowerS (candName root ext k))
      (Finset.Icc 1 (N + 1)) :=
    fun k1 _ k2 _ h12 => lowerS_candName_inj root ext k1 k2 h12
  have hcard1 : ((Finset.Icc 1 (N + 1)).image
      (fun k => lowerS (candName root ext k))).card = N + 1 := by
    rw [Finset.card_image_of_injOn hinj, Nat.card_Icc]
    omega
  have hcard2 : B.toFinset.card ≤ N := hBlen ▸ B.toFinset_card_le
  have := Finset.card_le_card hsub
  omega

theorem findSuffix_free (used result : List String) (root ext : String) :
    ∀ (fuel start : Nat),
      (∃ j, j < fuel ∧
        isBlocked used result (candName root ext (start + j)) = false) →
      isBlocked used result
        (findSuffix used result root ext fuel start) = false := by
  intro fuel
  induction fuel with
  | zero =>
    intro start h
    obtain ⟨j, hj, _⟩ := h
    omega
  | succ f ih =>
    intro start h
    obtain ⟨j, hj, hfree⟩ := h
    unfold findSuffix
    by_cases hb : isBlocked used result (candName root ext start) = true
    · rw [if_pos hb]
      apply ih
      cases j with
      | zero =>
        rw [Nat.add_zero] at hfree
        rw [hfree] at hb
        cases hb
      | succ j2 =>
        refine ⟨j2, by omega, ?_⟩
        have : start + 1 + j2 = start + (j2 + 1) := by omega
        rw [this]
        exact hfree
    · rw [Bool.not_eq_true] at hb
      rw [if_neg (by simp [hb])]
      exact hb

theorem findSuffix_shape (used result : List String) (root ext : String) :
    ∀ (fuel start : Nat), ∃ k, start ≤ k ∧
      findSuffix used result root ext fuel start = candName root ext k := by
  intro fuel
  induction fuel with
  | zero => intro start; exact ⟨start, le_refl _, rfl⟩
  | succ f ih =>
    intro start
    unfold findSuffix
    by_cases hb : isBlocked used result (candName root ext start) = true
    · rw [if_pos hb]
      obtain ⟨k, hk, heq⟩ := ih (start + 1)
      exact ⟨k, by omega, heq⟩
    · rw [if_neg hb]
      exact ⟨start, le_refl _, rfl⟩

theorem pickName_free (used result : List String) (name : String) :
    isBlocked used result (pickName used result name) = false := by
  unfold pickName
  by_cases hb : isBlocked used result name = true
  · rw [if_pos hb]
    apply findSuffix_free
    obtain ⟨k, hk1, hk2, hfree⟩ :=
      exists_free_cand used result (splitext name).1 (splitext name).2
    refine ⟨k - 1, by omega, ?_⟩
    have : 1 + (k - 1) = k := by omega
    rw [this]
    exact hfree
  · rw [Bool.not_eq_true] at hb
    rw [if_neg (by simp [hb])]
    exact hb

theorem pickName_derived (used result : List String) (name : String) :
    derivedFrom name (pickName used result name) := by
  unfold pickName
  by_cases hb : isBlocked used result name = true
  · rw [if_pos hb]
    obtain ⟨k, hk, heq⟩ := findSuffix_shape used result (splitext name).1
      (splitext name).2 (used.length + result.length + 1) 1
    exact Or.inr ⟨k, hk, heq⟩
  · rw [if_neg hb]
    exact Or.inl rfl

theorem ensureLoop_length (l : List String) :
    ∀ used result : List String,
      (ensureLoop used result l).length = result.length + l.length := by
  induction l with
  | nil => intro used result; simp [ensureLoop]
  | cons name rest ih =>
    intro used result
    show (ensureLoop (lowerS (pickName used result name) :: used)
      (result ++ [pickName used result name]) rest).length = _
    rw [ih]
    simp
    omega

theorem ensureLoop_spec (l : List String) :
    ∀ used result : List String,
      ((result.map lowerS).Nodup) →
      (∀ r ∈ result, lowerS r ∈ used) →
      (((ensureLoop used result l).map lowerS).Nodup ∧
        (∀ r ∈ ensureLoop used result l, r ∈ result ∨ lowerS r ∉ used) ∧
        ∃ np, ensureLoop used result l = result ++ np ∧
          List.Forall₂ derivedFrom l np) := by
  induction l with
  | nil =>
    intro used result hnd hsub
    exact ⟨hnd, fun r hr => Or.inl hr, [], by simp [ensureLoop],
      List.Forall₂.nil⟩
  | cons name rest ih =>
    intro used result hnd hsub
    have hfree := pickName_free used result name
    rw [isBlocked_false_iff] at hfree
    obtain ⟨hfu, hfr⟩ := hfree
    have hnd2 : ((result ++ [pickName used result name]).map lowerS).Nodup := by
      rw [List.map_append]
      rw [List.nodup_append]
      exact ⟨hnd, List.nodup_singleton _, by
        intro x hx hy
        simp only [List.map_cons, List.map_nil, List.mem_singleton] at hy
        subst hy
        exact hfr hx⟩
    have hsub2 : ∀ r ∈ result ++ [pickName used result name],
        lowerS r ∈ lowerS (pickName used result name) :: used := by
      intro r hr
      rcases List.mem_append.mp hr with h | h
      · exact List.mem_cons_of_mem _ (hsub r h)
      · rw [List.mem_singleton] at h
        subst h
        exact List.mem_cons_self _ _
    obtain ⟨hndo, hmem, np, hshape, hf2⟩ :=
      ih (lowerS (pickName used result name) :: used)
        (result ++ [pickName used result name]) hnd2 hsub2
    have hunfold : ensureLoop used result (name :: rest) =
        ensureLoop (lowerS (pickName used result name) :: used)
          (result ++ [pickName used result name]) rest := rfl
    refine ⟨hunfold ▸ hndo, ?_, pickName used result name :: np, ?_, ?_⟩
    · intro r hr
      rw [hunfold] at hr
      rcases hmem r hr with h | h
      · rcases List.mem_append.mp h with h2 | h2
        · exact Or.inl h2
        · rw [List.mem_singleton] at h2
          subst h2
          exact Or.inr hfu
      · exact Or.inr fun hru => h (List.mem_cons_of_mem _ hru)
    · rw [hunfold, hshape, List.append_assoc]
      rfl
    · exact List.Forall₂.cons (pickName_derived used result name) hf2

/-- C9: with overwrite enabled the requested names are returned
unchanged; with overwrite disabled `ensure_unique_names` returns a
same-length list, pairwise distinct (even case-insensitively) and
(case-insensitively) distinct from every existing name, in which each
output name derives from the input name at the same position — the name
itself or the name auto-suffixed with `_k` (`k ≥ 1`) before its
extension; in particular existing `["a.mp4"]` and requested
`["a.mp4", "a.mp4"]` yield `["a_1.mp4", "a_2.mp4"]`. -/
theorem ensure_unique_names_spec :
    (∀ base existing : List String,
      ensure_unique_names base existing true = base) ∧
    (∀ base existing : List String,
      (ensure_unique_names base existing false).length = base.length ∧
      (∀ r ∈ ensure_unique_names base existing false,
        ∀ ex ∈ existing, lowerS r ≠ lowerS ex) ∧
      (ensure_unique_names base existing false).Nodup ∧
      ((ensure_unique_names base existing false).map lowerS).Nodup ∧
      List.Forall₂ derivedFrom base
        (ensure_unique_names base existing false)) ∧
    ensure_unique_names ["a.mp4", "a.mp4"] ["a.mp4"] false =
      ["a_1.mp4", "a_2.mp4"] := by
  refine ⟨fun base existing => rfl, ?_, by decide⟩
  intro base existing
  obtain ⟨hnd, hmem, np, hshape, hf2⟩ :=
    ensureLoop_spec base (existing.map lowerS) [] (by simp) (by simp)
  have hout : ensure_unique_names base existing false =
      ensureLoop (existing.map lowerS) [] base := rfl
  refine ⟨?_, ?_, ?_, ?_, ?_⟩
  · rw [hout, ensureLoop_length]
    simp
  · intro r hr ex hex heq
    rcases hmem r (by rw [← hout]; exact hr) with h | h
    · exact absurd h (List.not_mem_nil r)
    · exact h (heq ▸ List.mem_map_of_mem lowerS hex)
  · exact (hout ▸ hnd).of_map
  · exact hout ▸ hnd
  · rw [hout, hshape]
    simpa using hf2

/-- Witness for `ensure_unique_names_spec`: the colliding two-request
scenario, with the length fact instantiated. -/
theorem ensure_unique_names_spec_witness :
    (ensure_unique_names ["a.mp4", "a.mp4"] ["a.mp4"] false).length = 2 ∧
    ensure_unique_names ["b.mp4"] ["a.mp4"] true = ["b.mp4"] ∧
    ensure_unique_names ["a.mp4", "a.mp4"] ["a.mp4"] false =
      ["a_1.mp4", "a_2.mp4"] :=
  ⟨(ensure_unique_names_spec.2.1 ["a.mp4", "a.mp4"] ["a.mp4"]).1,
    ensure_unique_names_spec.1 ["b.mp4"] ["a.mp4"],
    ensure_unique_names_spec.2.2⟩

/-- Witness for `sanitize_filename_len_and_charset` at a concrete
broadcaster-derived string: the sanitized form is short and the
underscore it contains is an allowed, separator-free character. -/
theorem sanitize_filename_len_and_charset_witness :
    (sanitize_filename "My Channel/Clips*").length ≤ 80 ∧
    (allowedFilenameChar '_' = true ∧ '_' ≠ '/' ∧ '_' ≠ '\\') :=
  ⟨(sanitize_filename_len_and_charset "My Channel/Clips*").1,
    (sanitize_filename_len_and_charset "My Channel/Clips*").2 '_'
      (by decide)⟩
